import Mathlib

/-!
Verification development for the deal.II vector-memory pool
(`include/deal.II/lac/vector_memory.h`): the `VectorMemory` protocol, the
`PrimitiveVectorMemory` (non-pooling) strategy, the `GrowingVectorMemory`
(growing pool) strategy, and the RAII `VectorMemory::Pointer` scoped handle.

Buffers (heap `VectorType` objects) are identified by their address, which we
model as a `Nat`; a possibly-null `VectorType *` is an `Option Nat`.

The bodies of `PrimitiveVectorMemory::alloc`, `PrimitiveVectorMemory::free`
and `VectorMemory<VectorType>::Pointer::Pointer` are present in the header and
are embedded from that source.  The member-function bodies of
`GrowingVectorMemory` (alloc, free, release_unused_memory, the destructor)
live in a templates file that is not part of this tree; those operations are
modelled from the specification's algorithm descriptions and are marked
`Modelled from the spec:` below.
-/

namespace VectorMemoryModel

/-- A buffer identity: the address of a `VectorType` object on the heap. -/
abbrev Buffer := Nat

/-- A possibly-null `VectorType *`; `none` models `nullptr`. -/
abbrev Ptr := Option Buffer

/-- Model of the system heap backing `new` / `delete`: `next` is the next
fresh address handed out by `new`, `live` the addresses of currently live
objects. -/
structure Heap where
  next : Buffer
  live : List Buffer
  deriving Repr, DecidableEq

/-- Heap well-formedness: every live address was previously handed out. -/
def Heap.wf (h : Heap) : Prop :=
  ∀ b ∈ h.live, b < h.next

instance (h : Heap) : Decidable h.wf := by
  unfold Heap.wf; infer_instance

namespace PrimitiveVectorMemory

/-- `PrimitiveVectorMemory<VectorType>::alloc` (vector_memory.h:360-365):
`return new VectorType();`.  A brand-new object is created on the heap and a
(non-null) pointer to it is returned. -/
def alloc (h : Heap) : Ptr × Heap :=
  (some h.next, { next := h.next + 1, live := h.next :: h.live })

/-- `PrimitiveVectorMemory<VectorType>::free` (vector_memory.h:369-374):
`delete v;`.  `delete` on a null pointer destroys nothing; on a non-null
pointer it destroys that one object.  The second component of the result is
the list of objects destroyed by the call. -/
def free (h : Heap) (v : Ptr) : Heap × List Buffer :=
  match v with
  | none => (h, [])
  | some b => ({ h with live := h.live.erase b }, [b])

end PrimitiveVectorMemory

/-- An abstract `VectorMemory<VectorType>` strategy over an internal state
type `σ`: the virtual interface of vector_memory.h:71-96, with `alloc`
returning a buffer and the updated strategy state, and `free` consuming a
buffer. -/
structure Strategy (σ : Type) where
  alloc : σ → Buffer × σ
  free : σ → Buffer → σ

/-- Model of `VectorMemory<VectorType>::Pointer` (vector_memory.h:133-145),
a `std::unique_ptr<VectorType, std::function<void(VectorType*)>>` whose
deleter calls `mem.free(v)`.  `buf = none` models a null (e.g. moved-from)
unique_ptr, whose destruction does not invoke the deleter. -/
structure Pointer where
  buf : Ptr
  deriving Repr, DecidableEq

/-- The `Pointer` constructor (vector_memory.h:347-356): initialises the
unique_ptr with `mem.alloc()` and a deleter that calls `mem.free`. -/
def pointerNew {σ : Type} (S : Strategy σ) (s : σ) : Pointer × σ :=
  ((⟨some (S.alloc s).1⟩ : Pointer), (S.alloc s).2)

/-- The `Pointer` destructor: `std::unique_ptr` invokes its deleter on the
held object exactly when the held pointer is non-null.  Returns the strategy
state after destruction and the number of `free` calls performed (0 or 1). -/
def pointerDestroy {σ : Type} (S : Strategy σ) (s : σ) (p : Pointer) :
    σ × Nat :=
  match p.buf with
  | none => (s, 0)
  | some b => (S.free s b, 1)

/-- `std::unique_ptr` move: the target takes over the held pointer and the
moved-from source is left holding null.  Result is (source after the move,
move target). -/
def pointerMove (p : Pointer) : Pointer × Pointer :=
  ((⟨none⟩ : Pointer), (⟨p.buf⟩ : Pointer))

/-- `ExcNotAllocatedHere` (vector_memory.h:105-107): the exception raised
when a vector is deallocated from a pool that did not allocate it. -/
inductive VMException where
  | ExcNotAllocatedHere
  deriving Repr, DecidableEq

/-- A registry entry, `GrowingVectorMemory::entry_type` (vector_memory.h:268):
a pair of an in-use flag and an (owned) buffer. -/
structure Entry where
  in_use : Bool
  buffer : Buffer
  deriving Repr, DecidableEq

namespace GrowingVectorMemory

/-- State of one `GrowingVectorMemory` instance together with the shared
registry it operates on: `data` is the pool's entry list (`Pool::data`,
vector_memory.h:299), `total_alloc` and `current_alloc` the instance counters
(vector_memory.h:311, 317), and `next` the system allocator's next fresh
address. -/
structure State where
  data : List Entry
  total_alloc : Nat
  current_alloc : Nat
  next : Buffer
  deriving Repr, DecidableEq

/-- Modelled from the spec: the first-fit scan of `GrowingVectorMemory::alloc`
(whose body is not in this tree) — "Scan entries in registry order for the
first entry with `in_use = false`. If found, mark it `in_use = true`, …,
return its buffer."  Returns the found buffer and the updated registry, or
`none` when no unused entry exists. -/
def markFirstUnused : List Entry → Option (Buffer × List Entry)
  | [] => none
  | e :: es =>
    if e.in_use then
      match markFirstUnused es with
      | none => none
      | some (b, es') => some (b, e :: es')
    else
      some (e.buffer, { e with in_use := true } :: es)

/-- Modelled from the spec: `GrowingVectorMemory::alloc` (body not in this
tree) — reuse the first unused entry if one exists, incrementing only
`currently_outstanding`; otherwise allocate a brand-new buffer, append a new
`(in_use = true, buffer)` entry, and increment both `total_allocations` and
`currently_outstanding`. -/
def alloc (s : State) : Buffer × State :=
  match markFirstUnused s.data with
  | some (b, d') =>
    (b, { s with data := d', current_alloc := s.current_alloc + 1 })
  | none =>
    (s.next,
     { data := s.data ++ [⟨true, s.next⟩],
       total_alloc := s.total_alloc + 1,
       current_alloc := s.current_alloc + 1,
       next := s.next + 1 })

/-- Modelled from the spec: the scan of `GrowingVectorMemory::free` (body not
in this tree) — "Scan entries for one whose buffer identity matches `buffer`
and whose `in_use = true`"; if found, mark it `in_use = false`. -/
def clearEntry (b : Buffer) : List Entry → Option (List Entry)
  | [] => none
  | e :: es =>
    if e.in_use = true ∧ e.buffer = b then
      some ({ e with in_use := false } :: es)
    else
      match clearEntry b es with
      | none => none
      | some es' => some (e :: es')

/-- Modelled from the spec: `GrowingVectorMemory::free` (body not in this
tree) — on success mark the entry unused and decrement the releasing
instance's `currently_outstanding`; if no matching in-use entry exists,
raise `ExcNotAllocatedHere` (the registry is not modified). -/
def free (s : State) (b : Buffer) : Except VMException State :=
  match clearEntry b s.data with
  | some d' =>
    .ok { s with data := d', current_alloc := s.current_alloc - 1 }
  | none => .error VMException.ExcNotAllocatedHere

/-- Modelled from the spec: `GrowingVectorMemory::release_unused_memory`
(body not in this tree) — "destroys and removes every entry with
`in_use = false`".  Returns the remaining registry and the list of destroyed
buffers. -/
def release_unused_memory (d : List Entry) : List Entry × List Buffer :=
  (d.filter (fun e => e.in_use),
   (d.filter (fun e => !e.in_use)).map (fun e => e.buffer))

/-- Modelled from the spec: the leak diagnostic of
`GrowingVectorMemory::~GrowingVectorMemory` (body not in this tree) — when
`currently_outstanding != 0` the destructor emits a warning identifying the
count of leaked buffers, otherwise no warning. -/
def destructorWarning (s : State) : Option Nat :=
  if s.current_alloc ≠ 0 then some s.current_alloc else none

/-- One operation performed through a `GrowingVectorMemory` instance. -/
inductive Op where
  | alloc : Op
  | free : Buffer → Op
  deriving Repr, DecidableEq

/-- The state after one operation.  A failed `free` raises
`ExcNotAllocatedHere` and leaves the state unchanged. -/
def step (s : State) : Op → State
  | Op.alloc => (alloc s).2
  | Op.free b =>
    match free s b with
    | .ok s' => s'
    | .error _ => s

/-- The state after a sequence of operations. -/
def run (s : State) (ops : List Op) : State :=
  ops.foldl step s

/-- The number of acquire calls in a sequence. -/
def acquires : List Op → Nat
  | [] => 0
  | Op.alloc :: ops => acquires ops + 1
  | Op.free _ :: ops => acquires ops

/-- The number of release calls of a sequence that complete (do not raise
`ExcNotAllocatedHere`) when run from `s`. -/
def completedReleases (s : State) : List Op → Nat
  | [] => 0
  | o :: ops =>
    (match o with
     | Op.alloc => 0
     | Op.free b => match free s b with | .ok _ => 1 | .error _ => 0)
    + completedReleases (step s o) ops

/-- The number of registry entries currently marked in use. -/
def inUseCount (d : List Entry) : Nat :=
  (d.filter (fun e => e.in_use)).length

end GrowingVectorMemory

end VectorMemoryModel

namespace VectorMemoryModel

namespace GrowingVectorMemory

theorem markFirstUnused_eq_none (d : List Entry) :
    markFirstUnused d = none ↔ ∀ e ∈ d, e.in_use = true := by
  induction d with
  | nil => simp [markFirstUnused]
  | cons e es ih =>
    cases he : e.in_use with
    | false => simp [markFirstUnused, he]
    | true =>
      cases h : markFirstUnused es with
      | none =>
        simp [markFirstUnused, he, h]
        exact ih.mp h
      | some p =>
        obtain ⟨b, es'⟩ := p
        simp only [markFirstUnused, he, if_true, h]
        constructor
        · intro hab; exact absurd hab (by simp)
        · intro hall
          have : markFirstUnused es = none :=
            ih.mpr fun x hx => hall x (List.mem_cons_of_mem _ hx)
          simp [h] at this

theorem markFirstUnused_eq_some (d : List Entry) (b : Buffer) (d' : List Entry)
    (h : markFirstUnused d = some (b, d')) :
    ∃ l e r, d = l ++ e :: r ∧ e.in_use = false ∧ e.buffer = b ∧
      d' = l ++ ({ e with in_use := true } : Entry) :: r ∧
      ∀ x ∈ l, x.in_use = true := by
  induction d generalizing d' with
  | nil => simp [markFirstUnused] at h
  | cons e es ih =>
    cases he : e.in_use with
    | false =>
      simp only [markFirstUnused, he, Bool.false_eq_true, if_false,
        Option.some.injEq, Prod.mk.injEq] at h
      exact ⟨[], e, es, rfl, he, h.1, by simp [h.2], by simp⟩
    | true =>
      cases hm : markFirstUnused es with
      | none => simp [markFirstUnused, he, hm] at h
      | some p =>
        obtain ⟨b', es'⟩ := p
        simp only [markFirstUnused, he, if_true, hm, Option.some.injEq,
          Prod.mk.injEq] at h
        obtain ⟨l, x, r, hd, hx, hb, hd', hl⟩ := ih es' (by rw [hm, h.1])
        refine ⟨e :: l, x, r, by simp [hd], hx, hb, by simp [← h.2, hd'], ?_⟩
        intro y hy
        rcases List.mem_cons.mp hy with hy | hy
        · rw [hy]; exact he
        · exact hl y hy

theorem clearEntry_eq_none (b : Buffer) (d : List Entry) :
    clearEntry b d = none ↔ ∀ e ∈ d, ¬(e.in_use = true ∧ e.buffer = b) := by
  induction d with
  | nil => simp [clearEntry]
  | cons e es ih =>
    by_cases he : e.in_use = true ∧ e.buffer = b
    · simp [clearEntry, he]
    · cases h : clearEntry b es with
      | none =>
        simp [clearEntry, he, h]
        exact ⟨fun h1 h2 => he ⟨h1, h2⟩,
               fun a ha h1 h2 => (ih.mp h) a ha ⟨h1, h2⟩⟩
      | some es' =>
        simp only [clearEntry, if_neg he, h]
        constructor
        · intro hab; exact absurd hab (by simp)
        · intro hall
          have : clearEntry b es = none :=
            ih.mpr fun x hx => hall x (List.mem_cons_of_mem _ hx)
          simp [h] at this

theorem clearEntry_eq_some (b : Buffer) (d d' : List Entry)
    (h : clearEntry b d = some d') :
    ∃ l e r, d = l ++ e :: r ∧ e.in_use = true ∧ e.buffer = b ∧
      d' = l ++ (⟨false, b⟩ : Entry) :: r ∧
      ∀ x ∈ l, ¬(x.in_use = true ∧ x.buffer = b) := by
  induction d generalizing d' with
  | nil => simp [clearEntry] at h
  | cons e es ih =>
    by_cases he : e.in_use = true ∧ e.buffer = b
    · simp only [clearEntry, if_pos he, Option.some.injEq] at h
      refine ⟨[], e, es, rfl, he.1, he.2, ?_, by simp⟩
      cases e
      simp_all
    · cases hc : clearEntry b es with
      | none => simp [clearEntry, he, hc] at h
      | some es' =>
        simp only [clearEntry, if_neg he, hc, Option.some.injEq] at h
        obtain ⟨l, x, r, hd, hx, hb, hd', hl⟩ := ih es' hc
        refine ⟨e :: l, x, r, by simp [hd], hx, hb, by simp [← h, hd'], ?_⟩
        intro y hy
        rcases List.mem_cons.mp hy with hy | hy
        · rw [hy]; exact he
        · exact hl y hy

theorem inUseCount_append (d₁ d₂ : List Entry) :
    inUseCount (d₁ ++ d₂) = inUseCount d₁ + inUseCount d₂ := by
  simp [inUseCount, List.filter_append]

theorem inUseCount_cons (e : Entry) (d : List Entry) :
    inUseCount (e :: d) = (if e.in_use then 1 else 0) + inUseCount d := by
  cases he : e.in_use <;> simp [inUseCount, List.filter_cons, he, Nat.add_comm]

theorem markFirstUnused_length (d : List Entry) (b : Buffer) (d' : List Entry)
    (h : markFirstUnused d = some (b, d')) : d'.length = d.length := by
  obtain ⟨l, e, r, hd, -, -, hd', -⟩ := markFirstUnused_eq_some d b d' h
  simp [hd, hd']

theorem markFirstUnused_inUseCount (d : List Entry) (b : Buffer)
    (d' : List Entry) (h : markFirstUnused d = some (b, d')) :
    inUseCount d' = inUseCount d + 1 := by
  obtain ⟨l, e, r, hd, he, -, hd', -⟩ := markFirstUnused_eq_some d b d' h
  subst hd hd'
  simp [inUseCount_append, inUseCount_cons, he]
  omega

theorem clearEntry_inUseCount (b : Buffer) (d d' : List Entry)
    (h : clearEntry b d = some d') :
    inUseCount d = inUseCount d' + 1 ∧ d'.length = d.length := by
  obtain ⟨l, e, r, hd, he, -, hd', -⟩ := clearEntry_eq_some b d d' h
  subst hd hd'
  refine ⟨?_, by simp⟩
  simp [inUseCount_append, inUseCount_cons, he]
  omega

theorem step_counter (s : State) (o : Op)
    (h : inUseCount s.data = s.current_alloc) :
    inUseCount (step s o).data = (step s o).current_alloc ∧
    (step s o).current_alloc + completedReleases s [o] =
      s.current_alloc + acquires [o] := by
  cases o with
  | alloc =>
    cases hm : markFirstUnused s.data with
    | none =>
      constructor
      · have hsing : inUseCount [(⟨true, s.next⟩ : Entry)] = 1 := by
          simp [inUseCount]
        simp [step, alloc, hm, inUseCount_append, hsing, h]
      · simp [step, alloc, hm, completedReleases, acquires]
    | some p =>
      obtain ⟨b, d'⟩ := p
      have h1 := markFirstUnused_inUseCount s.data b d' hm
      constructor
      · simp [step, alloc, hm, h1, h]
      · simp [step, alloc, hm, completedReleases, acquires]
  | free b =>
    cases hc : clearEntry b s.data with
    | none =>
      constructor
      · simp [step, free, hc, h]
      · simp [step, free, hc, completedReleases, acquires]
    | some d' =>
      have h1 := (clearEntry_inUseCount b s.data d' hc).1
      constructor
      · simp [step, free, hc]
        omega
      · simp [step, free, hc, completedReleases, acquires]
        omega

theorem run_counter (s : State) (ops : List Op)
    (h : inUseCount s.data = s.current_alloc) :
    inUseCount (run s ops).data = (run s ops).current_alloc ∧
    (run s ops).current_alloc + completedReleases s ops =
      s.current_alloc + acquires ops := by
  induction ops generalizing s with
  | nil => exact ⟨h, by simp [run, completedReleases, acquires]⟩
  | cons o ops ih =>
    obtain ⟨hstep1, hstep2⟩ := step_counter s o h
    obtain ⟨hrec1, hrec2⟩ := ih (step s o) hstep1
    have hrun : run s (o :: ops) = run (step s o) ops := by
      simp [run]
    have hcr : completedReleases s (o :: ops) =
        completedReleases s [o] + completedReleases (step s o) ops := by
      cases o <;> simp [completedReleases]
    have hacq : acquires (o :: ops) = acquires [o] + acquires ops := by
      cases o <;> simp [acquires, Nat.add_comm]
    rw [hrun]
    exact ⟨hrec1, by omega⟩

theorem markFirstUnused_append_all_used (l r : List Entry) (e : Entry)
    (hl : ∀ x ∈ l, x.in_use = true) (he : e.in_use = false) :
    markFirstUnused (l ++ e :: r) =
      some (e.buffer, l ++ ({ e with in_use := true } : Entry) :: r) := by
  induction l with
  | nil => simp [markFirstUnused, he]
  | cons x xs ih =>
    have hx : x.in_use = true := hl x (by simp)
    have h2 := ih fun y hy => hl y (List.mem_cons_of_mem _ hy)
    simp [markFirstUnused, hx, h2]

theorem clearEntry_prefix_all_used (b : Buffer) (l r d' : List Entry)
    (hl : ∀ x ∈ l, x.in_use = true)
    (h : clearEntry b (l ++ (⟨true, b⟩ : Entry) :: r) = some d') :
    ∃ l₁ r₁, d' = l₁ ++ (⟨false, b⟩ : Entry) :: r₁ ∧
      ∀ x ∈ l₁, x.in_use = true := by
  induction l generalizing d' with
  | nil =>
    have hstep : clearEntry b ((⟨true, b⟩ : Entry) :: r) =
        some ((⟨false, b⟩ : Entry) :: r) := by
      simp [clearEntry]
    rw [List.nil_append, hstep] at h
    cases h
    exact ⟨[], r, rfl, by simp⟩
  | cons x xs ih =>
    by_cases hm : x.in_use = true ∧ x.buffer = b
    · have hx : x = ⟨true, b⟩ := by
        cases x
        simp_all
      rw [List.cons_append] at h
      simp only [clearEntry, if_pos hm] at h
      cases h
      exact ⟨[], xs ++ (⟨true, b⟩ : Entry) :: r, by simp [hx], by simp⟩
    · rw [List.cons_append] at h
      simp only [clearEntry, if_neg hm] at h
      cases hc : clearEntry b (xs ++ (⟨true, b⟩ : Entry) :: r) with
      | none => simp [hc] at h
      | some es' =>
        simp only [hc] at h
        cases h
        obtain ⟨l₁, r₁, hd1, hall⟩ :=
          ih es' (fun y hy => hl y (List.mem_cons_of_mem _ hy)) hc
        refine ⟨x :: l₁, r₁, by simp [hd1], ?_⟩
        intro y hy
        rcases List.mem_cons.mp hy with hy | hy
        · rw [hy]; exact hl x (by simp)
        · exact hall y hy

theorem inUseCount_eq_zero (d : List Entry)
    (hd : ∀ e ∈ d, e.in_use = false) : inUseCount d = 0 := by
  induction d with
  | nil => simp [inUseCount]
  | cons e es ih =>
    rw [inUseCount_cons, hd e (by simp),
      ih fun x hx => hd x (List.mem_cons_of_mem _ hx)]
    simp

end GrowingVectorMemory

/-- C1: for every strategy instance, a `Pointer` constructed from it
immediately acquires a buffer from that strategy (the constructor calls
`mem.alloc()` and stores the result); destroying the constructed handle calls
`free` on that strategy with that buffer exactly once; after a move, the
moved-from source destroys with zero `free` calls and the target with exactly
one. -/
theorem pointer_raii_exactly_one_release {σ : Type} (S : Strategy σ)
    (s t u v : σ) :
    (pointerNew S s).1.buf = some (S.alloc s).1 ∧
    (pointerNew S s).2 = (S.alloc s).2 ∧
    pointerDestroy S t (pointerNew S s).1 = (S.free t (S.alloc s).1, 1) ∧
    pointerDestroy S u (pointerMove (pointerNew S s).1).1 = (u, 0) ∧
    pointerDestroy S v (pointerMove (pointerNew S s).1).2 =
      (S.free v (S.alloc s).1, 1) := by
  refine ⟨rfl, rfl, rfl, rfl, rfl⟩

/-- C8: `PrimitiveVectorMemory::alloc` never returns a null pointer and the
buffer it returns is brand new (distinct from every live buffer, for a
well-formed heap); `PrimitiveVectorMemory::free` destroys exactly the passed
buffer, immediately, and leaves every other live buffer alone. -/
theorem primitive_alloc_fresh_free_destroys (h : Heap) (hwf : h.wf) :
    (PrimitiveVectorMemory.alloc h).1 ≠ none ∧
    (∀ b, (PrimitiveVectorMemory.alloc h).1 = some b → b ∉ h.live) ∧
    (∀ b, (PrimitiveVectorMemory.free h (some b)).2 = [b]) ∧
    (∀ b, (PrimitiveVectorMemory.free h (some b)).1.live = h.live.erase b) ∧
    (∀ b c, c ≠ b →
      (c ∈ (PrimitiveVectorMemory.free h (some b)).1.live ↔ c ∈ h.live)) := by
  refine ⟨by simp [PrimitiveVectorMemory.alloc], ?_, fun b => rfl, fun b => rfl, ?_⟩
  · intro b hb hmem
    have : h.next = b := by
      simpa [PrimitiveVectorMemory.alloc] using hb
    exact absurd (hwf b hmem) (by simp [this.symm])
  · intro b c hcb
    simp [PrimitiveVectorMemory.free, List.mem_erase_of_ne hcb]

/-- Witness for C8's theorem at a concrete heap. -/
theorem primitive_alloc_fresh_free_destroys_witness :
    Heap.wf ⟨3, [0, 1, 2]⟩ ∧
    ((PrimitiveVectorMemory.alloc ⟨3, [0, 1, 2]⟩).1 ≠ none ∧
     (∀ b, (PrimitiveVectorMemory.alloc ⟨3, [0, 1, 2]⟩).1 = some b →
        b ∉ Heap.live ⟨3, [0, 1, 2]⟩) ∧
     (∀ b, (PrimitiveVectorMemory.free ⟨3, [0, 1, 2]⟩ (some b)).2 = [b]) ∧
     (∀ b, (PrimitiveVectorMemory.free ⟨3, [0, 1, 2]⟩ (some b)).1.live =
        (Heap.live ⟨3, [0, 1, 2]⟩).erase b) ∧
     (∀ b c, c ≠ b →
       (c ∈ (PrimitiveVectorMemory.free ⟨3, [0, 1, 2]⟩ (some b)).1.live ↔
        c ∈ Heap.live ⟨3, [0, 1, 2]⟩))) :=
  ⟨by decide, primitive_alloc_fresh_free_destroys ⟨3, [0, 1, 2]⟩ (by decide)⟩

/-- C10: `PrimitiveVectorMemory::free` called with a null pointer is a
harmless no-op: `delete nullptr;` destroys nothing and leaves the heap
unchanged. -/
theorem primitive_free_null_noop (h : Heap) :
    PrimitiveVectorMemory.free h none = (h, []) := rfl

open GrowingVectorMemory

/-- C3: for every sequence of acquire/release operations performed through
one `GrowingVectorMemory` instance (fresh instance, registry holding no
in-use entries), `current_alloc` equals the number of completed acquire
calls minus the number of completed (non-erroring) release calls.  The
sequence `ops` is universally quantified, so the equation holds at every
point (every prefix) of any operation sequence. -/
theorem current_alloc_is_acquires_minus_releases (s : State) (ops : List Op)
    (hdata : ∀ e ∈ s.data, e.in_use = false) (hc : s.current_alloc = 0) :
    completedReleases s ops ≤ acquires ops ∧
    (run s ops).current_alloc = acquires ops - completedReleases s ops := by
  have h0 : inUseCount s.data = s.current_alloc := by
    rw [hc]; exact inUseCount_eq_zero s.data hdata
  obtain ⟨-, h2⟩ := run_counter s ops h0
  omega

/-- Witness for C3's theorem: one acquire followed by one release of the
acquired buffer, from an empty registry. -/
theorem current_alloc_is_acquires_minus_releases_witness :
    completedReleases ⟨[], 0, 0, 0⟩ [Op.alloc, Op.free 0] ≤
      acquires [Op.alloc, Op.free 0] ∧
    (run (⟨[], 0, 0, 0⟩ : State) [Op.alloc, Op.free 0]).current_alloc =
      acquires [Op.alloc, Op.free 0] -
        completedReleases ⟨[], 0, 0, 0⟩ [Op.alloc, Op.free 0] :=
  current_alloc_is_acquires_minus_releases ⟨[], 0, 0, 0⟩ [Op.alloc, Op.free 0]
    (by simp) rfl

/-- C9: destroying a `GrowingVectorMemory` instance after any sequence of
operations from a fresh start emits a leak warning exactly when the number
of completed acquires differs from the number of completed releases, and the
reported count is exactly the number of outstanding buffers; with nothing
outstanding no warning is emitted. -/
theorem destructor_warning_reports_leaks (s : State) (ops : List Op)
    (hdata : ∀ e ∈ s.data, e.in_use = false) (hc : s.current_alloc = 0) :
    destructorWarning (run s ops) =
      if acquires ops = completedReleases s ops then none
      else some (acquires ops - completedReleases s ops) := by
  have h0 : inUseCount s.data = s.current_alloc := by
    rw [hc]; exact inUseCount_eq_zero s.data hdata
  obtain ⟨-, h2⟩ := run_counter s ops h0
  by_cases heq : acquires ops = completedReleases s ops
  · have hz : (run s ops).current_alloc = 0 := by omega
    simp [destructorWarning, hz, heq]
  · have h3 : (run s ops).current_alloc =
        acquires ops - completedReleases s ops := by omega
    have h4 : (run s ops).current_alloc ≠ 0 := by omega
    unfold destructorWarning
    rw [if_pos h4, if_neg heq, h3]

/-- Witness for C9's theorem: a single unmatched acquire leaks one buffer. -/
theorem destructor_warning_reports_leaks_witness :
    destructorWarning (run (⟨[], 0, 0, 0⟩ : State) [Op.alloc]) =
      if acquires [Op.alloc] = completedReleases ⟨[], 0, 0, 0⟩ [Op.alloc]
      then none
      else some (acquires [Op.alloc] -
        completedReleases ⟨[], 0, 0, 0⟩ [Op.alloc]) :=
  destructor_warning_reports_leaks ⟨[], 0, 0, 0⟩ [Op.alloc] (by simp) rfl

/-- C5: on the growing pool, a successful release of buffer `b` followed by
a second release of `b` raises `ExcNotAllocatedHere`, and the failed release
leaves the state (registry and counters) unchanged.  Buffer identities in
the registry are distinct, as they are addresses of distinct live objects. -/
theorem double_release_raises (s s' : State) (b : Buffer)
    (hnd : (s.data.map Entry.buffer).Nodup)
    (h : GrowingVectorMemory.free s b = Except.ok s') :
    GrowingVectorMemory.free s' b =
      Except.error VMException.ExcNotAllocatedHere ∧
    step s' (Op.free b) = s' := by
  cases hc : clearEntry b s.data with
  | none => simp [GrowingVectorMemory.free, hc] at h
  | some d' =>
    simp only [GrowingVectorMemory.free, hc] at h
    obtain ⟨l, e, r, hd, he, hb, hd', hl⟩ := clearEntry_eq_some b s.data d' hc
    have hnd' : (l.map Entry.buffer ++ b :: r.map Entry.buffer).Nodup := by
      have h5 := hnd
      rw [hd] at h5
      simpa [hb] using h5
    have h3 := List.nodup_append.mp hnd'
    have hbl : b ∉ l.map Entry.buffer :=
      fun hmem => h3.2.2 hmem (List.mem_cons_self b _)
    have hbr : b ∉ r.map Entry.buffer := (List.nodup_cons.mp h3.2.1).1
    have hnone : clearEntry b d' = none := by
      rw [clearEntry_eq_none]
      intro x hx
      rw [hd'] at hx
      rcases List.mem_append.mp hx with hx | hx
      · rintro ⟨-, hxb⟩
        exact hbl (hxb ▸ List.mem_map_of_mem Entry.buffer hx)
      · rcases List.mem_cons.mp hx with hx | hx
        · rw [hx]
          rintro ⟨h1, -⟩
          simp at h1
        · rintro ⟨-, hxb⟩
          exact hbr (hxb ▸ List.mem_map_of_mem Entry.buffer hx)
    cases h
    exact ⟨by simp [GrowingVectorMemory.free, hnone],
           by simp [step, GrowingVectorMemory.free, hnone]⟩

/-- Witness for C5's theorem: release buffer 0 twice from a one-entry
registry. -/
theorem double_release_raises_witness :
    GrowingVectorMemory.free (⟨[⟨false, 0⟩], 1, 0, 1⟩ : State) 0 =
      Except.error VMException.ExcNotAllocatedHere ∧
    step (⟨[⟨false, 0⟩], 1, 0, 1⟩ : State) (Op.free 0) =
      ⟨[⟨false, 0⟩], 1, 0, 1⟩ :=
  double_release_raises ⟨[⟨true, 0⟩], 1, 1, 1⟩ ⟨[⟨false, 0⟩], 1, 0, 1⟩ 0
    (by simp) rfl

/-- C6: on any `GrowingVectorMemory` state, `total_alloc` is incremented (by
one) by exactly those acquires that find no unused registry entry, is left
unchanged by acquires that reuse an unused entry, and is never decreased by
any operation. -/
theorem total_alloc_increments_only_on_fresh_allocation (s : State) :
    ((∀ e ∈ s.data, e.in_use = true) →
      (GrowingVectorMemory.alloc s).2.total_alloc = s.total_alloc + 1) ∧
    ((∃ e ∈ s.data, e.in_use = false) →
      (GrowingVectorMemory.alloc s).2.total_alloc = s.total_alloc) ∧
    (∀ o : Op, s.total_alloc ≤ (step s o).total_alloc) := by
  refine ⟨?_, ?_, ?_⟩
  · intro hall
    have hm : markFirstUnused s.data = none :=
      (markFirstUnused_eq_none _).mpr hall
    simp [GrowingVectorMemory.alloc, hm]
  · rintro ⟨e, he, hu⟩
    cases hm : markFirstUnused s.data with
    | none =>
      have := (markFirstUnused_eq_none _).mp hm e he
      simp [this] at hu
    | some p =>
      obtain ⟨b, d'⟩ := p
      simp [GrowingVectorMemory.alloc, hm]
  · intro o
    cases o with
    | alloc =>
      cases hm : markFirstUnused s.data with
      | none => simp [step, GrowingVectorMemory.alloc, hm]
      | some p =>
        obtain ⟨b, d'⟩ := p
        simp [step, GrowingVectorMemory.alloc, hm]
    | free b =>
      cases hc : clearEntry b s.data with
      | none => simp [step, GrowingVectorMemory.free, hc]
      | some d' => simp [step, GrowingVectorMemory.free, hc]

/-- Witness for C6's theorem: an acquire on a registry whose only entry is
in use performs a fresh allocation and increments `total_alloc`. -/
theorem total_alloc_increments_only_on_fresh_allocation_witness :
    (GrowingVectorMemory.alloc (⟨[⟨true, 0⟩], 1, 1, 1⟩ : State)).2.total_alloc
      = 1 + 1 :=
  (total_alloc_increments_only_on_fresh_allocation ⟨[⟨true, 0⟩], 1, 1, 1⟩).1
    (by decide)

/-- C7: `release_unused_memory` keeps exactly the entries with
`in_use = true`, untouched (same flag and buffer identity) and in their
original order, destroys the buffer of every entry with `in_use = false`,
and is the identity (removing and destroying nothing) when no entry is
unused. -/
theorem release_unused_memory_removes_exactly_unused (d : List Entry) :
    List.Sublist (release_unused_memory d).1 d ∧
    (∀ e ∈ d, e.in_use = true → e ∈ (release_unused_memory d).1) ∧
    (∀ e ∈ (release_unused_memory d).1, e.in_use = true ∧ e ∈ d) ∧
    (∀ e ∈ d, e.in_use = false →
      e.buffer ∈ (release_unused_memory d).2) ∧
    ((∀ e ∈ d, e.in_use = true) → release_unused_memory d = (d, [])) := by
  refine ⟨List.filter_sublist d, ?_, ?_, ?_, ?_⟩
  · intro e he hu
    exact List.mem_filter.mpr ⟨he, hu⟩
  · intro e he
    have h1 := List.mem_filter.mp he
    exact ⟨h1.2, h1.1⟩
  · intro e he hu
    exact List.mem_map.mpr ⟨e, List.mem_filter.mpr ⟨he, by simp [hu]⟩, rfl⟩
  · intro hall
    unfold release_unused_memory
    rw [List.filter_eq_self.mpr hall,
      List.filter_eq_nil_iff.mpr (fun e he => by simp [hall e he])]
    rfl

/-- Witness for C7's theorem: a registry whose entries are all in use is
left exactly as it was. -/
theorem release_unused_memory_removes_exactly_unused_witness :
    release_unused_memory [(⟨true, 3⟩ : Entry)] = ([⟨true, 3⟩], []) :=
  (release_unused_memory_removes_exactly_unused [⟨true, 3⟩]).2.2.2.2
    (by decide)

/-- C2 counterexample: the claim requires every concrete strategy, including
`PrimitiveVectorMemory`, to report `ExcNotAllocatedHere` on a release of a
buffer it did not allocate.  But `PrimitiveVectorMemory::free` is just
`delete v;`: on the heap `⟨1, [0, 5]⟩` — in which this strategy only ever
handed out buffer 0, while buffer 5 was allocated elsewhere — releasing
buffer 5 silently destroys it (it is removed from the live set) and no error
of any kind is raised. -/
theorem primitive_free_foreign_silently_destroys :
    (PrimitiveVectorMemory.free ⟨1, [0, 5]⟩ (some 5)).2 = [5] ∧
    (PrimitiveVectorMemory.free ⟨1, [0, 5]⟩ (some 5)).1.live = [0] :=
  ⟨rfl, rfl⟩

/-- C2 amended: the growing pool strategy reports `ExcNotAllocatedHere`
(leaving its state unchanged) when asked to release a buffer with no
matching in-use registry entry, but the non-pooling strategy performs no
such check: it unconditionally destroys whatever non-null buffer it is
passed. -/
theorem growing_raises_foreign_primitive_destroys (s : State) (b : Buffer)
    (hb : ∀ e ∈ s.data, ¬(e.in_use = true ∧ e.buffer = b))
    (h : Heap) (c : Buffer) :
    GrowingVectorMemory.free s b =
      Except.error VMException.ExcNotAllocatedHere ∧
    step s (Op.free b) = s ∧
    (PrimitiveVectorMemory.free h (some c)).2 = [c] := by
  have hc : clearEntry b s.data = none := (clearEntry_eq_none b s.data).mpr hb
  exact ⟨by simp [GrowingVectorMemory.free, hc],
         by simp [step, GrowingVectorMemory.free, hc], rfl⟩

/-- Witness for C2's amended theorem: releasing unregistered buffer 9 on a
growing pool holding only an unused entry for buffer 4, and releasing
buffer 0 through the non-pooling strategy. -/
theorem growing_raises_foreign_primitive_destroys_witness :
    GrowingVectorMemory.free (⟨[⟨false, 4⟩], 1, 0, 5⟩ : State) 9 =
      Except.error VMException.ExcNotAllocatedHere ∧
    step (⟨[⟨false, 4⟩], 1, 0, 5⟩ : State) (Op.free 9) =
      ⟨[⟨false, 4⟩], 1, 0, 5⟩ ∧
    (PrimitiveVectorMemory.free ⟨1, [0]⟩ (some 0)).2 = [0] :=
  growing_raises_foreign_primitive_destroys ⟨[⟨false, 4⟩], 1, 0, 5⟩ 9
    (by decide) ⟨1, [0]⟩ 0

/-- C4 counterexample: the claim says release of `b` immediately followed by
acquire returns the same buffer `b`.  On the registry
`[(in_use = false, 0), (in_use = true, 1)]`, releasing buffer 1 and then
acquiring returns buffer 0 — the first-fit scan hands out the first unused
entry, which is the older unused buffer 0, not the just-released buffer 1. -/
theorem release_then_acquire_different_buffer :
    GrowingVectorMemory.free (⟨[⟨false, 0⟩, ⟨true, 1⟩], 2, 1, 2⟩ : State) 1 =
      Except.ok (⟨[⟨false, 0⟩, ⟨false, 1⟩], 2, 0, 2⟩ : State) ∧
    (GrowingVectorMemory.alloc
      (⟨[⟨false, 0⟩, ⟨false, 1⟩], 2, 0, 2⟩ : State)).1 = 0 ∧
    (0 : Buffer) ≠ 1 :=
  ⟨rfl, rfl, by decide⟩

/-- C4 amended: after a successful release of buffer `b`, an immediate
acquire reuses an existing registry entry rather than allocating — the
first entry with `in_use = false` in registry order is handed out,
`total_alloc` is unchanged and no entry is appended — and the returned
buffer is `b` itself whenever no unused entry precedes `b`'s (in
particular whenever every registry entry was in use before the release). -/
theorem release_then_acquire_reuses (s s' : State) (b : Buffer)
    (h : GrowingVectorMemory.free s b = Except.ok s') :
    (GrowingVectorMemory.alloc s').2.total_alloc = s'.total_alloc ∧
    (GrowingVectorMemory.alloc s').2.data.length = s'.data.length ∧
    (∀ l r, s.data = l ++ (⟨true, b⟩ : Entry) :: r →
      (∀ x ∈ l, x.in_use = true) →
      (GrowingVectorMemory.alloc s').1 = b) ∧
    ((∀ e ∈ s.data, e.in_use = true) →
      (GrowingVectorMemory.alloc s').1 = b) := by
  cases hc : clearEntry b s.data with
  | none => simp [GrowingVectorMemory.free, hc] at h
  | some d' =>
    simp only [GrowingVectorMemory.free, hc, Except.ok.injEq] at h
    subst h
    obtain ⟨l, e, r, hd, he, hb, hd', hl⟩ := clearEntry_eq_some b s.data d' hc
    have hmem : (⟨false, b⟩ : Entry) ∈ d' := by rw [hd']; simp
    refine ⟨?_, ?_, ?_, ?_⟩
    · cases hm : markFirstUnused d' with
      | none =>
        exact absurd ((markFirstUnused_eq_none d').mp hm _ hmem) (by simp)
      | some p =>
        obtain ⟨b', d''⟩ := p
        simp [GrowingVectorMemory.alloc, hm]
    · cases hm : markFirstUnused d' with
      | none =>
        exact absurd ((markFirstUnused_eq_none d').mp hm _ hmem) (by simp)
      | some p =>
        obtain ⟨b', d''⟩ := p
        simp [GrowingVectorMemory.alloc, hm,
          markFirstUnused_length d' b' d'' hm]
    · intro l₂ r₂ hdec hl₂
      rw [hdec] at hc
      obtain ⟨l₁, r₁, hd1, hall₁⟩ :=
        clearEntry_prefix_all_used b l₂ r₂ d' hl₂ hc
      have hfit := markFirstUnused_append_all_used l₁ r₁ ⟨false, b⟩ hall₁ rfl
      rw [← hd1] at hfit
      simp [GrowingVectorMemory.alloc, hfit]
    · intro hall
      have hlall : ∀ x ∈ l, x.in_use = true := fun x hx =>
        hall x (by rw [hd]; exact List.mem_append_left _ hx)
      have hfit := markFirstUnused_append_all_used l r ⟨false, b⟩ hlall rfl
      rw [← hd'] at hfit
      simp [GrowingVectorMemory.alloc, hfit]

/-- Witness for C4's amended theorem: on registry
`[(in_use, 0), (in_use, 1), (unused, 2)]` — where an unused entry exists but
only after buffer 1's entry — releasing buffer 1 and then acquiring returns
buffer 1 itself, with no new allocation and no appended entry. -/
theorem release_then_acquire_reuses_witness :
    (GrowingVectorMemory.alloc
      (⟨[⟨true, 0⟩, ⟨false, 1⟩, ⟨false, 2⟩], 3, 1, 3⟩ : State)).2.total_alloc
      = 3 ∧
    (GrowingVectorMemory.alloc
      (⟨[⟨true, 0⟩, ⟨false, 1⟩, ⟨false, 2⟩], 3, 1, 3⟩ : State)).2.data.length
      = 3 ∧
    (GrowingVectorMemory.alloc
      (⟨[⟨true, 0⟩, ⟨false, 1⟩, ⟨false, 2⟩], 3, 1, 3⟩ : State)).1 = 1 := by
  have h := release_then_acquire_reuses
    ⟨[⟨true, 0⟩, ⟨true, 1⟩, ⟨false, 2⟩], 3, 2, 3⟩
    ⟨[⟨true, 0⟩, ⟨false, 1⟩, ⟨false, 2⟩], 3, 1, 3⟩ 1 rfl
  exact ⟨h.1, h.2.1, h.2.2.1 [⟨true, 0⟩] [⟨false, 2⟩] rfl (by decide)⟩

end VectorMemoryModel
